import Mathlib

/-!
Shallow embedding of the client-side synchronization engine of the
collaborative jigsaw puzzle game, translated from src/src/game.rs.
Floating point scalars (f32) are embedded as rationals with exact
arithmetic; the squared comparison sqLen d <= r * r embeds the source's
d.len() <= r for a nonnegative threshold r.
-/

namespace LD52

/-- Two dimensional vector over the rationals, embedding the game's f32 vectors. -/
structure Vec2 where
  x : ℚ
  y : ℚ
deriving DecidableEq

instance : Add Vec2 := ⟨fun a b => ⟨a.x + b.x, a.y + b.y⟩⟩

instance : Sub Vec2 := ⟨fun a b => ⟨a.x - b.x, a.y - b.y⟩⟩

instance : Zero Vec2 := ⟨⟨0, 0⟩⟩

@[simp] theorem Vec2.add_x (a b : Vec2) : (a + b).x = a.x + b.x := rfl

@[simp] theorem Vec2.add_y (a b : Vec2) : (a + b).y = a.y + b.y := rfl

@[simp] theorem Vec2.sub_x (a b : Vec2) : (a - b).x = a.x - b.x := rfl

@[simp] theorem Vec2.sub_y (a b : Vec2) : (a - b).y = a.y - b.y := rfl

@[simp] theorem Vec2.zero_x : (0 : Vec2).x = 0 := rfl

@[simp] theorem Vec2.zero_y : (0 : Vec2).y = 0 := rfl

/-- Componentwise product, as geng's Vec2 multiplication used for grid deltas times tile size. -/
def Vec2.cmul (a b : Vec2) : Vec2 := ⟨a.x * b.x, a.y * b.y⟩

/-- Squared euclidean length of a vector. -/
def Vec2.sqLen (a : Vec2) : ℚ := a.x * a.x + a.y * a.y

/-- Two dimensional vector of integers, embedding the i32 grid coordinate deltas. -/
structure Vec2i where
  x : ℤ
  y : ℤ
deriving DecidableEq

instance : Sub Vec2i := ⟨fun a b => ⟨a.x - b.x, a.y - b.y⟩⟩

@[simp] theorem Vec2i.isub_x (a b : Vec2i) : (a - b).x = a.x - b.x := rfl

@[simp] theorem Vec2i.isub_y (a b : Vec2i) : (a - b).y = a.y - b.y := rfl

/-- Cast an integer vector to a rational vector, as the source's map(|x| x as f32). -/
def Vec2i.toVec2 (a : Vec2i) : Vec2 := ⟨(a.x : ℚ), (a.y : ℚ)⟩

/-- Axis aligned bounding box, embedding geng's AABB of f32. -/
structure AABB where
  x_min : ℚ
  x_max : ℚ
  y_min : ℚ
  y_max : ℚ
deriving DecidableEq

/-- Scalar clamp: Rust clamp(x, lo, hi). -/
def clampQ (x lo hi : ℚ) : ℚ := max lo (min x hi)

/-- Componentwise clamp of a point into a box, embedding geng's clamp_aabb. -/
def clampAabb (p : Vec2) (bb : AABB) : Vec2 :=
  ⟨clampQ p.x bb.x_min bb.x_max, clampQ p.y bb.y_min bb.y_max⟩

/-- Membership of a point in a box. -/
def inAabb (p : Vec2) (bb : AABB) : Prop :=
  bb.x_min ≤ p.x ∧ p.x ≤ bb.x_max ∧ bb.y_min ≤ p.y ∧ p.y ≤ bb.y_max

instance (p : Vec2) (bb : AABB) : Decidable (inAabb p bb) := by
  unfold inAabb; infer_instance

/-- Modelled from the spec: the generic Interpolator (its source file is not under src/).
Per section 4.1 and the data model, it stores the last authoritative server sample
(targetPos, targetVel) and the smoothed current value (pos, vel).
server_update records a new authoritative sample without snapping the current value;
teleport immediately overwrites the visual value (and the sample) with the given pair. -/
structure Interp where
  pos : Vec2
  vel : Vec2
  targetPos : Vec2
  targetVel : Vec2
deriving DecidableEq

/-- Modelled from the spec: Interpolated::teleport immediately overwrites the visual value. -/
def Interp.teleport (_i : Interp) (p v : Vec2) : Interp := ⟨p, v, p, v⟩

/-- Modelled from the spec: Interpolated::server_update records a new authoritative sample
toward which the current value will be smoothed. -/
def Interp.server_update (i : Interp) (p v : Vec2) : Interp := ⟨i.pos, i.vel, p, v⟩

/-- Modelled from the spec: Interpolated::get, the current visual value. -/
def Interp.get (i : Interp) : Vec2 := i.pos

/-- Modelled from the spec: Interpolated::get_derivative, the current visual velocity. -/
def Interp.get_derivative (i : Interp) : Vec2 := i.vel

/-- Modelled from the spec: Interpolated::new(pos, vel). -/
def Interp.new (p v : Vec2) : Interp := ⟨p, v, p, v⟩

/-- Puzzle tile, embedding the Tile of the jigsaw module (fields used by game.rs). -/
structure Tile where
  puzzle_pos : Vec2i
  connected_to : List ℕ
  grabbed_by : Option ℕ
  interpolated : Interp
  last_interaction_time : ℚ
deriving DecidableEq

/-- Jigsaw: the tile collection (indexed by tile id) and the fixed tile size. -/
structure Jigsaw where
  tiles : List Tile
  tile_size : Vec2
deriving DecidableEq

/-- Connection list of tile i (empty for an out of range index). -/
def connList (tiles : List Tile) (i : ℕ) : List ℕ :=
  ((tiles[i]?).map Tile.connected_to).getD []

/-- In range neighbors of tile i via connected_to. -/
def neighborsOf (tiles : List Tile) (i : ℕ) : List ℕ :=
  (connList tiles i).filter (fun j => j < tiles.length)

/-- One expansion step of the connected component traversal. -/
def gacStep (tiles : List Tile) (v : List ℕ) : List ℕ :=
  (v ++ v.flatMap (neighborsOf tiles)).dedup

/-- Fueled iteration of the expansion step. -/
def gacAux (tiles : List Tile) : ℕ → List ℕ → List ℕ
  | 0, v => v
  | n + 1, v => gacAux tiles n (gacStep tiles v)

/-- Modelled from the spec: Jigsaw::get_all_connected (its source file is not under src/).
Section 4.2: the connected component of a tile is every tile transitively reachable
via connected_to, including the argument itself, computed by graph traversal.
Iterating the one step expansion tiles.length times reaches the full component. -/
def get_all_connected (tiles : List Tile) (i : ℕ) : List ℕ :=
  gacAux tiles tiles.length [i]

/-- Point update of a tile list at an index (identity when out of range). -/
def updateAt (tiles : List Tile) (i : ℕ) (f : Tile → Tile) : List Tile :=
  match tiles[i]? with
  | some t => tiles.set i (f t)
  | none => tiles

theorem length_updateAt (tiles : List Tile) (i : ℕ) (f : Tile → Tile) :
    (updateAt tiles i f).length = tiles.length := by
  unfold updateAt
  cases h : tiles[i]? with
  | none => rfl
  | some t => simp

theorem updateAt_getElem?_self (tiles : List Tile) (i : ℕ) (f : Tile → Tile) :
    (updateAt tiles i f)[i]? = (tiles[i]?).map f := by
  unfold updateAt
  cases h : tiles[i]? with
  | none => simp [h]
  | some t => simp [List.getElem?_set_self', h]

theorem updateAt_getElem?_ne (tiles : List Tile) (i j : ℕ) (f : Tile → Tile)
    (h : i ≠ j) : (updateAt tiles i f)[j]? = tiles[j]? := by
  unfold updateAt
  cases hx : tiles[i]? with
  | none => rfl
  | some t => exact List.getElem?_set_ne h

theorem mem_gacStep_of_mem {tiles : List Tile} {v : List ℕ} {x : ℕ} (h : x ∈ v) :
    x ∈ gacStep tiles v := by
  unfold gacStep
  rw [List.mem_dedup, List.mem_append]
  exact Or.inl h

theorem mem_gacAux_of_mem {tiles : List Tile} :
    ∀ (n : ℕ) {v : List ℕ} {x : ℕ}, x ∈ v → x ∈ gacAux tiles n v
  | 0, _, _, h => h
  | n + 1, _, _, h => mem_gacAux_of_mem n (mem_gacStep_of_mem h)

theorem self_mem_get_all_connected (tiles : List Tile) (i : ℕ) :
    i ∈ get_all_connected tiles i :=
  mem_gacAux_of_mem tiles.length (List.mem_singleton.mpr rfl)

theorem gacStep_lt {tiles : List Tile} {v : List ℕ}
    (h : ∀ x ∈ v, x < tiles.length) :
    ∀ x ∈ gacStep tiles v, x < tiles.length := by
  intro x hx
  unfold gacStep at hx
  rw [List.mem_dedup, List.mem_append] at hx
  rcases hx with hx | hx
  · exact h x hx
  · rcases List.mem_flatMap.mp hx with ⟨a, _, hxa⟩
    unfold neighborsOf at hxa
    have := List.mem_filter.mp hxa
    exact of_decide_eq_true this.2

theorem gacAux_lt {tiles : List Tile} :
    ∀ (n : ℕ) {v : List ℕ}, (∀ x ∈ v, x < tiles.length) →
      ∀ x ∈ gacAux tiles n v, x < tiles.length
  | 0, _, h => h
  | n + 1, _, h => gacAux_lt n (gacStep_lt h)

theorem get_all_connected_lt {tiles : List Tile} {i : ℕ} (hi : i < tiles.length) :
    ∀ x ∈ get_all_connected tiles i, x < tiles.length := by
  apply gacAux_lt
  intro x hx
  rw [List.mem_singleton] at hx
  exact hx ▸ hi

theorem nodup_gacAux {tiles : List Tile} :
    ∀ (n : ℕ) {v : List ℕ}, v.Nodup → (gacAux tiles n v).Nodup
  | 0, _, h => h
  | n + 1, _, _ => nodup_gacAux n (List.nodup_dedup _)

theorem nodup_get_all_connected (tiles : List Tile) (i : ℕ) :
    (get_all_connected tiles i).Nodup :=
  nodup_gacAux tiles.length (List.nodup_singleton i)

/-- Apply the same point update at every index of the list l, in order. -/
def foldUpd (ts0 : List Tile) (l : List ℕ) (f : Tile → Tile) : List Tile :=
  l.foldl (fun ts t => updateAt ts t f) ts0

theorem length_foldUpd (ts0 : List Tile) (l : List ℕ) (f : Tile → Tile) :
    (foldUpd ts0 l f).length = ts0.length := by
  induction l generalizing ts0 with
  | nil => rfl
  | cons a l ih =>
    show (foldUpd (updateAt ts0 a f) l f).length = ts0.length
    rw [ih, length_updateAt]

theorem foldUpd_getElem?_not_mem {l : List ℕ} {t : ℕ} (h : t ∉ l)
    (ts0 : List Tile) (f : Tile → Tile) : (foldUpd ts0 l f)[t]? = ts0[t]? := by
  induction l generalizing ts0 with
  | nil => rfl
  | cons a l ih =>
    have ha : a ≠ t := fun he => h (he ▸ List.mem_cons_self a l)
    have ht : t ∉ l := fun hm => h (List.mem_cons_of_mem a hm)
    show (foldUpd (updateAt ts0 a f) l f)[t]? = ts0[t]?
    rw [ih ht, updateAt_getElem?_ne _ _ _ _ ha]

theorem foldUpd_getElem?_mem {l : List ℕ} {t : ℕ} (hnd : l.Nodup) (h : t ∈ l)
    (ts0 : List Tile) (f : Tile → Tile) :
    (foldUpd ts0 l f)[t]? = (ts0[t]?).map f := by
  induction l generalizing ts0 with
  | nil => cases h
  | cons a l ih =>
    rcases List.mem_cons.mp h with rfl | hm
    · have ht : t ∉ l := (List.nodup_cons.mp hnd).1
      show (foldUpd (updateAt ts0 t f) l f)[t]? = (ts0[t]?).map f
      rw [foldUpd_getElem?_not_mem ht, updateAt_getElem?_self]
    · show (foldUpd (updateAt ts0 a f) l f)[t]? = (ts0[t]?).map f
      have ha : a ≠ t := fun he => (List.nodup_cons.mp hnd).1 (he ▸ hm)
      rw [ih (List.nodup_cons.mp hnd).2 hm, updateAt_getElem?_ne _ _ _ _ ha]

/-- Embeds Game::move_tile (game.rs 236-252): the rigid group movement primitive.
The whole connected component of the anchor tile is repositioned, each member to
pos plus its grid delta from the anchor scaled by the tile size, via teleport when
snap is true and via server_update otherwise. The source reads
self.jigsaw.tiles[tile].puzzle_pos, which panics on an out of range anchor; here an
out of range anchor reads a default grid position, and every theorem about
move_tile assumes the anchor index is in range. -/
def move_tile (j : Jigsaw) (tile : ℕ) (pos : Vec2) (velOpt : Option Vec2) (snap : Bool) : Jigsaw :=
  let vel := velOpt.getD 0
  let comp := get_all_connected j.tiles tile
  let start_pos := ((j.tiles[tile]?).map Tile.puzzle_pos).getD ⟨0, 0⟩
  { j with tiles := foldUpd j.tiles comp (fun t =>
      { t with interpolated :=
          if snap then
            t.interpolated.teleport (pos + (t.puzzle_pos - start_pos).toVec2.cmul j.tile_size) vel
          else
            t.interpolated.server_update (pos + (t.puzzle_pos - start_pos).toVec2.cmul j.tile_size) vel }) }

theorem move_tile_tile_size (j : Jigsaw) (tile : ℕ) (pos : Vec2)
    (velOpt : Option Vec2) (snap : Bool) :
    (move_tile j tile pos velOpt snap).tile_size = j.tile_size := rfl

theorem move_tile_length (j : Jigsaw) (tile : ℕ) (pos : Vec2)
    (velOpt : Option Vec2) (snap : Bool) :
    (move_tile j tile pos velOpt snap).tiles.length = j.tiles.length :=
  length_foldUpd _ _ _

theorem move_tile_getElem?_mem {j : Jigsaw} {tile t : ℕ}
    (h : t ∈ get_all_connected j.tiles tile) (pos : Vec2) (velOpt : Option Vec2) (snap : Bool) :
    (move_tile j tile pos velOpt snap).tiles[t]? = (j.tiles[t]?).map (fun tl =>
      { tl with interpolated :=
          if snap then tl.interpolated.teleport (pos + (tl.puzzle_pos - ((j.tiles[tile]?).map Tile.puzzle_pos).getD ⟨0, 0⟩).toVec2.cmul j.tile_size) (velOpt.getD 0)
          else tl.interpolated.server_update (pos + (tl.puzzle_pos - ((j.tiles[tile]?).map Tile.puzzle_pos).getD ⟨0, 0⟩).toVec2.cmul j.tile_size) (velOpt.getD 0) }) :=
  foldUpd_getElem?_mem (nodup_get_all_connected _ _) h _ _

theorem move_tile_getElem?_not_mem {j : Jigsaw} {tile t : ℕ}
    (h : t ∉ get_all_connected j.tiles tile) (pos : Vec2) (velOpt : Option Vec2) (snap : Bool) :
    (move_tile j tile pos velOpt snap).tiles[t]? = j.tiles[t]? :=
  foldUpd_getElem?_not_mem h _ _

theorem move_tile_connected_to (j : Jigsaw) (tile : ℕ) (pos : Vec2)
    (velOpt : Option Vec2) (snap : Bool) (t : ℕ) :
    ((move_tile j tile pos velOpt snap).tiles[t]?).map Tile.connected_to =
      (j.tiles[t]?).map Tile.connected_to := by
  by_cases h : t ∈ get_all_connected j.tiles tile
  · rw [move_tile_getElem?_mem h]
    cases j.tiles[t]? <;> rfl
  · rw [move_tile_getElem?_not_mem h]

theorem move_tile_puzzle_pos (j : Jigsaw) (tile : ℕ) (pos : Vec2)
    (velOpt : Option Vec2) (snap : Bool) (t : ℕ) :
    ((move_tile j tile pos velOpt snap).tiles[t]?).map Tile.puzzle_pos =
      (j.tiles[t]?).map Tile.puzzle_pos := by
  by_cases h : t ∈ get_all_connected j.tiles tile
  · rw [move_tile_getElem?_mem h]
    cases j.tiles[t]? <;> rfl
  · rw [move_tile_getElem?_not_mem h]

/-- Player entry of the client's player table (game.rs 11-16). The stable id is
the key of the association list holding the table. -/
structure Player where
  interpolation : Interp
  tile_grabbed : Option (ℕ × Vec2)
deriving DecidableEq

/-- Player entry created lazily by Game::get_player (game.rs 95-104). -/
def freshPlayer : Player := ⟨Interp.new 0 0, none⟩

/-- Association list lookup of a player by id, embedding Collection::get. -/
def lookupP : List (ℕ × Player) → ℕ → Option Player
  | [], _ => none
  | q :: ps, i => if q.1 = i then some q.2 else lookupP ps i

/-- Update the entry of player i in place, embedding a write through Collection::get_mut. -/
def updateP : List (ℕ × Player) → ℕ → (Player → Player) → List (ℕ × Player)
  | [], _, _ => []
  | q :: ps, i, f => (if q.1 = i then (q.1, f q.2) else q) :: updateP ps i f

/-- Insert a fresh entry for player i when absent, as Game::get_player does. -/
def ensureP (ps : List (ℕ × Player)) (i : ℕ) : List (ℕ × Player) :=
  match lookupP ps i with
  | some _ => ps
  | none => ps ++ [(i, freshPlayer)]

/-- Remove the entry of player i, as the PlayerDisconnected handler does. -/
def removeP : List (ℕ × Player) → ℕ → List (ℕ × Player)
  | [], _ => []
  | q :: ps, i => if q.1 = i then removeP ps i else q :: removeP ps i

theorem lookupP_updateP_self (ps : List (ℕ × Player)) (i : ℕ) (f : Player → Player) :
    lookupP (updateP ps i f) i = (lookupP ps i).map f := by
  induction ps with
  | nil => rfl
  | cons q ps ih =>
    by_cases h : q.1 = i
    · simp [lookupP, updateP, h]
    · simpa [lookupP, updateP, h] using ih

theorem lookupP_updateP_ne (ps : List (ℕ × Player)) (i j : ℕ) (f : Player → Player)
    (h : j ≠ i) : lookupP (updateP ps i f) j = lookupP ps j := by
  induction ps with
  | nil => rfl
  | cons q ps ih =>
    have hij : i ≠ j := Ne.symm h
    by_cases hq : q.1 = i
    · have hj : ¬ q.1 = j := fun he => h (he.symm.trans hq)
      simp [lookupP, updateP, hq, hj, hij, ih]
    · by_cases hj : q.1 = j
      · simp [lookupP, updateP, hq, hj, h]
      · simp [lookupP, updateP, hq, hj, ih]

theorem lookupP_ensureP_self (ps : List (ℕ × Player)) (i : ℕ) :
    lookupP (ensureP ps i) i = some ((lookupP ps i).getD freshPlayer) := by
  unfold ensureP
  cases h : lookupP ps i with
  | some p => simp [h]
  | none =>
    induction ps with
    | nil => simp [lookupP]
    | cons q ps ih =>
      by_cases hq : q.1 = i
      · simp [lookupP, hq] at h
      · have h2 : lookupP ps i = none := by simpa [lookupP, hq] using h
        simpa [lookupP, hq] using ih h2

theorem lookupP_removeP_self (ps : List (ℕ × Player)) (i : ℕ) :
    lookupP (removeP ps i) i = none := by
  induction ps with
  | nil => rfl
  | cons q ps ih =>
    by_cases hq : q.1 = i
    · simpa [removeP, hq] using ih
    · simpa [lookupP, removeP, hq] using ih

/-- Outbound protocol messages produced by game.rs. -/
inductive ClientMessage where
  | UpdatePos (pos : Vec2)
  | GrabTile (tile : ℕ) (offset : Vec2)
  | ReleaseTile (tile : ℕ) (pos : Vec2)
  | ConnectTiles (a : ℕ) (b : ℕ)
deriving DecidableEq

/-- Client game state, embedding the fields of struct Game (game.rs 18-34) that the
synchronization core reads or writes. The geng handle, assets, room config, camera
and framebuffer size belong to rendering and camera projection, which the spec
places out of scope; dragging keeps only whether a camera drag is active. -/
structure GameState where
  id : ℕ
  players : List (ℕ × Player)
  jigsaw : Jigsaw
  bounds : AABB
  dragging : Bool
  play_connect_sound : Bool
  time : ℚ
  hovered_tile : Option ℕ
deriving DecidableEq

/-- Modelled from the spec: Tile::contains (the tile geometry module is not under
src/). Section 4.5 speaks of the tile's bounding shape containing the query point;
we model the bounding shape as the axis aligned box of one tile size centered at
the tile's current visual position. -/
def tileContains (tileSize : Vec2) (t : Tile) (p : Vec2) : Bool :=
  decide (|p.x - t.interpolated.get.x| ≤ tileSize.x / 2 ∧ |p.y - t.interpolated.get.y| ≤ tileSize.y / 2)

/-- Tiles containing the query point, with their own last_interaction_time, in
index order, embedding the filter of Game::hovered_tile (game.rs 163-171). -/
def hovCandidates (j : Jigsaw) (p : Vec2) : List (ℕ × ℚ) :=
  (List.range j.tiles.length).filterMap (fun i =>
    (j.tiles[i]?).bind (fun t =>
      if tileContains j.tile_size t p then some (i, t.last_interaction_time) else none))

/-- Fold computing max_by_key as Rust's Iterator does: the accumulator is replaced
whenever the new key is greater or equal, so the last maximal element wins. -/
def pickLastMax : Option (ℕ × ℚ) → List (ℕ × ℚ) → Option (ℕ × ℚ)
  | acc, [] => acc
  | none, c :: rest => pickLastMax (some c) rest
  | some b, c :: rest => if b.2 ≤ c.2 then pickLastMax (some c) rest else pickLastMax (some b) rest

/-- Embeds Game::hovered_tile (game.rs 163-171): among the tiles whose shape
contains pos, pick the one with the greatest last_interaction_time, later index
winning ties. -/
def hovered_tile (s : GameState) (p : Vec2) : Option ℕ :=
  (pickLastMax none (hovCandidates s.jigsaw p)).map (fun c => c.1)

/-- Snap threshold, game.rs line 7. -/
def SNAP_DISTANCE : ℚ := 0.2

/-- Embeds Game::click (game.rs 172-186). Returns none where the source would
panic on an unwrap (hovered index out of range or local player entry absent),
otherwise the new state and the outbound messages sent. -/
def click (s : GameState) (pos : Vec2) : Option (GameState × List ClientMessage) :=
  match hovered_tile s pos with
  | none => some (s, [])
  | some i =>
    match s.jigsaw.tiles[i]?, lookupP s.players s.id with
    | some tile, some _ =>
      let offset := tile.interpolated.get - pos
      let players := updateP s.players s.id (fun p => { p with tile_grabbed := some (i, offset) })
      let tiles1 := updateAt s.jigsaw.tiles i (fun t => { t with grabbed_by := some s.id })
      let comp := get_all_connected tiles1 i
      let tiles2 := foldUpd tiles1 comp (fun t => { t with last_interaction_time := s.time })
      some ({ s with players := players, jigsaw := { s.jigsaw with tiles := tiles2 } }, [ClientMessage.GrabTile i offset])
    | _, _ => none

/-- Body of the snap scan of Game::release (game.rs 205-232) for one pair of
tiles: tile i is skipped when already in t's connected_to; otherwise the grid
position delta is computed, and when the two tiles are grid adjacent along
exactly one axis the offset from the perfect snap position is compared against
SNAP_DISTANCE, emitting ConnectTiles(t, i) when within the threshold. The
source stores the offset in an Option and matches on it; here the two some
branches carry their threshold check inline, which is the same control flow. -/
def snapCheck (j : Jigsaw) (t : ℕ) (tile : Tile) (i : ℕ) (other : Tile) : Option ClientMessage :=
  if tile.connected_to.contains i then none
  else if (tile.puzzle_pos - other.puzzle_pos).x = 0 ∧ (tile.puzzle_pos - other.puzzle_pos).y.natAbs = 1 then
    (if Vec2.sqLen (tile.interpolated.get - other.interpolated.get - ⟨0, j.tile_size.y * (((tile.puzzle_pos - other.puzzle_pos).y.sign : ℤ) : ℚ)⟩) ≤ SNAP_DISTANCE * SNAP_DISTANCE then some (ClientMessage.ConnectTiles t i) else none)
  else if (tile.puzzle_pos - other.puzzle_pos).y = 0 ∧ (tile.puzzle_pos - other.puzzle_pos).x.natAbs = 1 then
    (if Vec2.sqLen (tile.interpolated.get - other.interpolated.get - ⟨j.tile_size.x * (((tile.puzzle_pos - other.puzzle_pos).x.sign : ℤ) : ℚ), 0⟩) ≤ SNAP_DISTANCE * SNAP_DISTANCE then some (ClientMessage.ConnectTiles t i) else none)
  else none

/-- The scan body of Game::release for one member t of the released component:
each tile i of the collection is checked against t by snapCheck. -/
def snapMsgsFor (j : Jigsaw) (t : ℕ) : List ClientMessage :=
  match j.tiles[t]? with
  | none => []
  | some tile =>
    (List.range j.tiles.length).filterMap (fun i => (j.tiles[i]?).bind (snapCheck j t tile i))

/-- Embeds Game::release (game.rs 187-234): stop the camera drag, and when the
local player holds a tile, clear the hold, send ReleaseTile with the local
player's interpolated cursor position, clear grabbed_by, and run the snap scan
over the released component. none embeds the source's unwrap panics. -/
def release (s : GameState) : Option (GameState × List ClientMessage) :=
  let s0 := { s with dragging := false }
  match lookupP s0.players s0.id with
  | none => none
  | some p =>
    match p.tile_grabbed with
    | none => some ({ s0 with players := updateP s0.players s0.id (fun q => { q with tile_grabbed := none }) }, [])
    | some (tile_id, _) =>
      let players := updateP s0.players s0.id (fun q => { q with tile_grabbed := none })
      match s0.jigsaw.tiles[tile_id]? with
      | none => none
      | some _ =>
        let tiles1 := updateAt s0.jigsaw.tiles tile_id (fun t => { t with grabbed_by := none })
        let j1 : Jigsaw := { s0.jigsaw with tiles := tiles1 }
        let connected := get_all_connected j1.tiles tile_id
        let msgs := ClientMessage.ReleaseTile tile_id p.interpolation.get :: connected.flatMap (snapMsgsFor j1)
        some ({ s0 with players := players, jigsaw := j1 }, msgs)

/-- Embeds Game::update_cursor (game.rs 257-289), taking the already camera
projected world position of the mouse: screen_to_world and the camera belong to
the out of scope rendering layer, so the camera drag branch here only clears the
hover state. The cursor is clamped to the board bounds, broadcast, and stored by
teleporting the local player's interpolator. -/
def update_cursor (s : GameState) (world_pos : Vec2) : GameState × List ClientMessage :=
  let cursor_pos := clampAabb world_pos s.bounds
  let msgs := [ClientMessage.UpdatePos cursor_pos]
  let players := updateP (ensureP s.players s.id) s.id (fun p => { p with interpolation := p.interpolation.teleport cursor_pos 0 })
  let s1 := { s with players := players }
  if s1.dragging then ({ s1 with hovered_tile := none }, msgs)
  else
    match hovered_tile s1 cursor_pos with
    | some h => ({ s1 with hovered_tile := some h }, msgs)
    | none => ({ s1 with hovered_tile := none }, msgs)

/-- Embeds the UpdatePos arm of Game::handle_connection (game.rs 111-115):
get_player creates the entry lazily, then records the authoritative sample. -/
def handleUpdatePos (s : GameState) (i : ℕ) (pos : Vec2) : GameState :=
  { s with players := updateP (ensureP s.players i) i (fun p => { p with interpolation := p.interpolation.server_update pos 0 }) }

/-- Embeds the PlayerDisconnected arm (game.rs 116-118). -/
def handlePlayerDisconnected (s : GameState) (i : ℕ) : GameState :=
  { s with players := removeP s.players i }

/-- Embeds the TileGrabbed arm (game.rs 119-129). The source unwraps the player
table entry without creating it and indexes the tile list; none embeds either
panic. The grab is recorded and the whole component's interaction time refreshed. -/
def handleTileGrabbed (s : GameState) (player tile : ℕ) (offset : Vec2) : Option GameState :=
  match lookupP s.players player, s.jigsaw.tiles[tile]? with
  | some _, some _ =>
    let players := updateP s.players player (fun p => { p with tile_grabbed := some (tile, offset) })
    let tiles1 := updateAt s.jigsaw.tiles tile (fun t => { t with grabbed_by := some player })
    let comp := get_all_connected tiles1 tile
    let tiles2 := foldUpd tiles1 comp (fun t => { t with last_interaction_time := s.time })
    some { s with players := players, jigsaw := { s.jigsaw with tiles := tiles2 } }
  | _, _ => none

/-- Embeds the TileReleased arm (game.rs 130-140): get_player creates the entry
lazily, the stored grab offset is taken out of the entry (zero when absent),
grabbed_by is cleared, and the component is moved twice: teleport to the tile's
own current position with the player's cursor velocity, then smoothed to
pos + offset. The source reads the tile's position after clearing grabbed_by,
which leaves the interpolator untouched, so reading it before is the same value;
none embeds the tile indexing panic, and the inner lookup cannot miss after
ensureP. -/
def handleTileReleased (s : GameState) (player tile : ℕ) (pos : Vec2) : Option GameState :=
  let ps1 := ensureP s.players player
  match lookupP ps1 player with
  | none => none
  | some p =>
    let offset := (p.tile_grabbed.map (fun g => g.2)).getD 0
    let ps2 := updateP ps1 player (fun q => { q with tile_grabbed := none })
    let vel := p.interpolation.get_derivative
    match s.jigsaw.tiles[tile]? with
    | none => none
    | some t =>
      let j1 : Jigsaw := { s.jigsaw with tiles := updateAt s.jigsaw.tiles tile (fun tl => { tl with grabbed_by := none }) }
      let j2 := move_tile j1 tile t.interpolated.get (some vel) true
      let j3 := move_tile j2 tile (pos + offset) none false
      some { s with players := ps2, jigsaw := j3 }

/-- Embeds the ConnectTiles arm (game.rs 141-159): both symmetric edge pushes
happen first, then the target position for tile a is computed from tile b's
current position and the grid delta of a minus b, and tile a's now merged
component is moved smoothly to it. The pushes only touch connected_to, so the
positions read afterwards by the source equal the ones read here before. A delta
that is not a unit step along exactly one axis is the source's unreachable
branch, and an out of range index is the source's indexing panic; both are none. -/
def handleConnectTiles (s : GameState) (a b : ℕ) : Option GameState :=
  match s.jigsaw.tiles[a]?, s.jigsaw.tiles[b]? with
  | some ta, some tb =>
    let tiles1 := updateAt s.jigsaw.tiles a (fun t => { t with connected_to := t.connected_to ++ [b] })
    let tiles2 := updateAt tiles1 b (fun t => { t with connected_to := t.connected_to ++ [a] })
    let j1 : Jigsaw := { s.jigsaw with tiles := tiles2 }
    let d := ta.puzzle_pos - tb.puzzle_pos
    let posOpt : Option Vec2 :=
      if d.x = 0 ∧ d.y.natAbs = 1 then some (tb.interpolated.get + ⟨0, s.jigsaw.tile_size.y * ((d.y.sign : ℤ) : ℚ)⟩)
      else if d.y = 0 ∧ d.x.natAbs = 1 then some (tb.interpolated.get + ⟨s.jigsaw.tile_size.x * ((d.x.sign : ℤ) : ℚ), 0⟩)
      else none
    match posOpt with
    | none => none
    | some pos => some { s with jigsaw := move_tile j1 a pos none false, play_connect_sound := true }
  | _, _ => none

/-- Fold a sequence of ConnectTiles notifications through the handler. -/
def applyConnects : List (ℕ × ℕ) → GameState → Option GameState
  | [], s => some s
  | op :: ops, s =>
    match handleConnectTiles s op.1 op.2 with
    | none => none
    | some s2 => applyConnects ops s2

@[ext] theorem Vec2.ext {a b : Vec2} (hx : a.x = b.x) (hy : a.y = b.y) : a = b := by
  cases a; cases b; cases hx; cases hy; rfl

theorem Vec2i.sub_self_eq (a : Vec2i) : a - a = ⟨0, 0⟩ := by
  cases a with
  | mk x y =>
    show Vec2i.mk (x - x) (y - y) = Vec2i.mk 0 0
    rw [sub_self, sub_self]

theorem Vec2.add_cmul_zero (v ts : Vec2) : v + (Vec2i.toVec2 ⟨0, 0⟩).cmul ts = v := by
  ext <;> simp [Vec2i.toVec2, Vec2.cmul]

theorem Interp.targetPos_teleport (i : Interp) (p v : Vec2) :
    (i.teleport p v).targetPos = p := rfl

theorem Interp.targetPos_server_update (i : Interp) (p v : Vec2) :
    (i.server_update p v).targetPos = p := rfl

/-- Concrete tile builder for the concrete instances below: grid position,
connections, grabber, interpolator at rest at the given position, interaction time. -/
def mkTile (gx gy : ℤ) (conn : List ℕ) (grab : Option ℕ) (px py : ℚ) (time : ℚ) : Tile :=
  ⟨⟨gx, gy⟩, conn, grab, ⟨⟨px, py⟩, 0, ⟨px, py⟩, 0⟩, time⟩

/-- Concrete player builder: cursor interpolator at rest at the given position. -/
def mkPlayer (cx cy : ℚ) (grab : Option (ℕ × Vec2)) : Player :=
  ⟨⟨⟨cx, cy⟩, 0, ⟨cx, cy⟩, 0⟩, grab⟩

/-- Concrete game state builder with fixed bounds and no drag in progress. -/
def mkState (id : ℕ) (ps : List (ℕ × Player)) (tiles : List Tile) (ts : Vec2) (time : ℚ) : GameState :=
  ⟨id, ps, ⟨tiles, ts⟩, ⟨-10, 10, -10, 10⟩, false, false, time, none⟩

/-- C2: for every call of the group movement primitive move_tile and every tile t
of the anchor's connected component, t's interpolator target is set to
pos + (t.grid − anchor.grid) × tile_size, via teleport when snap is true and via
server_update otherwise; consequently any two tiles of the component come out
with targets offset by exactly their grid position delta times the tile size. -/
theorem claim_C2 (j : Jigsaw) (anchor : ℕ) (ta : Tile) (ha : j.tiles[anchor]? = some ta)
    (pos : Vec2) (velOpt : Option Vec2) (snap : Bool) :
    (∀ t tl, t ∈ get_all_connected j.tiles anchor → j.tiles[t]? = some tl →
      (move_tile j anchor pos velOpt snap).tiles[t]? = some { tl with interpolated := if snap then tl.interpolated.teleport (pos + (tl.puzzle_pos - ta.puzzle_pos).toVec2.cmul j.tile_size) (velOpt.getD 0) else tl.interpolated.server_update (pos + (tl.puzzle_pos - ta.puzzle_pos).toVec2.cmul j.tile_size) (velOpt.getD 0) }) ∧
    (∀ t u tl2 tu2, t ∈ get_all_connected j.tiles anchor → u ∈ get_all_connected j.tiles anchor →
      (move_tile j anchor pos velOpt snap).tiles[t]? = some tl2 →
      (move_tile j anchor pos velOpt snap).tiles[u]? = some tu2 →
      tl2.interpolated.targetPos - tu2.interpolated.targetPos = (tl2.puzzle_pos - tu2.puzzle_pos).toVec2.cmul j.tile_size) := by
  have hstart : ((j.tiles[anchor]?).map Tile.puzzle_pos).getD ⟨0, 0⟩ = ta.puzzle_pos := by
    rw [ha]; rfl
  have hmem : ∀ t tl, t ∈ get_all_connected j.tiles anchor → j.tiles[t]? = some tl →
      (move_tile j anchor pos velOpt snap).tiles[t]? = some { tl with interpolated := if snap then tl.interpolated.teleport (pos + (tl.puzzle_pos - ta.puzzle_pos).toVec2.cmul j.tile_size) (velOpt.getD 0) else tl.interpolated.server_update (pos + (tl.puzzle_pos - ta.puzzle_pos).toVec2.cmul j.tile_size) (velOpt.getD 0) } := by
    intro t tl hmem htl
    rw [move_tile_getElem?_mem hmem, htl, hstart]
    rfl
  refine ⟨hmem, ?_⟩
  intro t u tl2 tu2 hmt hmu hgt hgu
  cases htl : j.tiles[t]? with
  | none => rw [move_tile_getElem?_mem hmt, htl] at hgt; cases hgt
  | some tl =>
    cases htu : j.tiles[u]? with
    | none => rw [move_tile_getElem?_mem hmu, htu] at hgu; cases hgu
    | some tu =>
      have h1 := hmem t tl hmt htl
      have h2 := hmem u tu hmu htu
      rw [h1] at hgt
      rw [h2] at hgu
      injection hgt with hgt
      injection hgu with hgu
      subst hgt
      subst hgu
      cases snap <;>
      · show (pos + (tl.puzzle_pos - ta.puzzle_pos).toVec2.cmul j.tile_size) -
            (pos + (tu.puzzle_pos - ta.puzzle_pos).toVec2.cmul j.tile_size) =
            (tl.puzzle_pos - tu.puzzle_pos).toVec2.cmul j.tile_size
        ext <;> · simp [Vec2i.toVec2, Vec2.cmul]; ring

/-- C2 witness: the theorem applied to a concrete two tile component. -/
theorem claim_C2_witness :
    (∀ t tl, t ∈ get_all_connected (Jigsaw.mk [mkTile 0 0 [1] none 0 0 0, mkTile 1 0 [0] none 5 5 0] ⟨1, 1⟩).tiles 0 →
      (Jigsaw.mk [mkTile 0 0 [1] none 0 0 0, mkTile 1 0 [0] none 5 5 0] ⟨1, 1⟩).tiles[t]? = some tl →
      (move_tile (Jigsaw.mk [mkTile 0 0 [1] none 0 0 0, mkTile 1 0 [0] none 5 5 0] ⟨1, 1⟩) 0 ⟨3, 4⟩ none true).tiles[t]? = some { tl with interpolated := if true then tl.interpolated.teleport (⟨3, 4⟩ + (tl.puzzle_pos - (mkTile 0 0 [1] none 0 0 0).puzzle_pos).toVec2.cmul ⟨1, 1⟩) ((none : Option Vec2).getD 0) else tl.interpolated.server_update (⟨3, 4⟩ + (tl.puzzle_pos - (mkTile 0 0 [1] none 0 0 0).puzzle_pos).toVec2.cmul ⟨1, 1⟩) ((none : Option Vec2).getD 0) }) ∧
    (∀ t u tl2 tu2, t ∈ get_all_connected (Jigsaw.mk [mkTile 0 0 [1] none 0 0 0, mkTile 1 0 [0] none 5 5 0] ⟨1, 1⟩).tiles 0 →
      u ∈ get_all_connected (Jigsaw.mk [mkTile 0 0 [1] none 0 0 0, mkTile 1 0 [0] none 5 5 0] ⟨1, 1⟩).tiles 0 →
      (move_tile (Jigsaw.mk [mkTile 0 0 [1] none 0 0 0, mkTile 1 0 [0] none 5 5 0] ⟨1, 1⟩) 0 ⟨3, 4⟩ none true).tiles[t]? = some tl2 →
      (move_tile (Jigsaw.mk [mkTile 0 0 [1] none 0 0 0, mkTile 1 0 [0] none 5 5 0] ⟨1, 1⟩) 0 ⟨3, 4⟩ none true).tiles[u]? = some tu2 →
      tl2.interpolated.targetPos - tu2.interpolated.targetPos = (tl2.puzzle_pos - tu2.puzzle_pos).toVec2.cmul ⟨1, 1⟩) :=
  claim_C2 (Jigsaw.mk [mkTile 0 0 [1] none 0 0 0, mkTile 1 0 [0] none 5 5 0] ⟨1, 1⟩) 0
    (mkTile 0 0 [1] none 0 0 0) rfl ⟨3, 4⟩ none true

/-- Bounds rectangle computed at game creation (game.rs 61): the image rectangle of
the given size centered at the origin, extended uniformly by 3. -/
def gameBounds (size : Vec2) : AABB :=
  ⟨-(size.x / 2) - 3, size.x / 2 + 3, -(size.y / 2) - 3, size.y / 2 + 3⟩

theorem update_cursor_snd (s : GameState) (w : Vec2) :
    (update_cursor s w).2 = [ClientMessage.UpdatePos (clampAabb w s.bounds)] := by
  simp only [update_cursor]
  split
  · rfl
  · split <;> rfl

theorem update_cursor_players (s : GameState) (w : Vec2) :
    (update_cursor s w).1.players =
      updateP (ensureP s.players s.id) s.id (fun p => { p with interpolation := p.interpolation.teleport (clampAabb w s.bounds) 0 }) := by
  simp only [update_cursor]
  split
  · rfl
  · split <;> rfl

theorem inAabb_clampAabb (p : Vec2) (bb : AABB)
    (h1 : bb.x_min ≤ bb.x_max) (h2 : bb.y_min ≤ bb.y_max) :
    inAabb (clampAabb p bb) bb := by
  refine ⟨le_max_left _ _, max_le h1 (min_le_right _ _), le_max_left _ _, max_le h2 (min_le_right _ _)⟩

/-- C10: every cursor move broadcasts exactly one UpdatePos message whose position
is the mouse world position clamped to the bounds rectangle computed at game
creation, the same clamped position is stored as the local player's cursor, and
for a nonnegative image size that clamped position always lies inside the bounds. -/
theorem claim_C10 (s : GameState) (size : Vec2) (hb : s.bounds = gameBounds size)
    (hx : 0 ≤ size.x) (hy : 0 ≤ size.y) (p : Vec2) :
    (update_cursor s p).2 = [ClientMessage.UpdatePos (clampAabb p s.bounds)] ∧
    inAabb (clampAabb p s.bounds) s.bounds ∧
    (∀ q, lookupP (update_cursor s p).1.players s.id = some q →
      q.interpolation.get = clampAabb p s.bounds) := by
  refine ⟨update_cursor_snd s p, ?_, ?_⟩
  · apply inAabb_clampAabb
    · rw [hb]
      show -(size.x / 2) - 3 ≤ size.x / 2 + 3
      linarith
    · rw [hb]
      show -(size.y / 2) - 3 ≤ size.y / 2 + 3
      linarith
  · intro q hq
    rw [update_cursor_players, lookupP_updateP_self, lookupP_ensureP_self] at hq
    injection hq with hq
    subst hq
    rfl

/-- C10 witness: the theorem applied at a concrete state and an out of bounds
mouse position. -/
theorem claim_C10_witness :
    (update_cursor (mkState 1 [] [] ⟨1, 1⟩ 0) ⟨100, -100⟩).2 =
      [ClientMessage.UpdatePos (clampAabb ⟨100, -100⟩ (mkState 1 [] [] ⟨1, 1⟩ 0).bounds)] ∧
    inAabb (clampAabb ⟨100, -100⟩ (mkState 1 [] [] ⟨1, 1⟩ 0).bounds) (mkState 1 [] [] ⟨1, 1⟩ 0).bounds ∧
    (∀ q, lookupP (update_cursor (mkState 1 [] [] ⟨1, 1⟩ 0) ⟨100, -100⟩).1.players (mkState 1 [] [] ⟨1, 1⟩ 0).id = some q →
      q.interpolation.get = clampAabb ⟨100, -100⟩ (mkState 1 [] [] ⟨1, 1⟩ 0).bounds) :=
  claim_C10 (mkState 1 [] [] ⟨1, 1⟩ 0) ⟨14, 14⟩ (by with_unfolding_all decide)
    (by norm_num) (by norm_num) ⟨100, -100⟩

theorem ensureP_eq_of_lookup_some {ps : List (ℕ × Player)} {i : ℕ} {p : Player}
    (h : lookupP ps i = some p) : ensureP ps i = ps := by
  unfold ensureP; rw [h]

theorem move_tile_anchor {j : Jigsaw} {tile : ℕ} {tl : Tile} (h : j.tiles[tile]? = some tl)
    (pos : Vec2) (velOpt : Option Vec2) (snap : Bool) :
    (move_tile j tile pos velOpt snap).tiles[tile]? = some { tl with interpolated := if snap then tl.interpolated.teleport pos (velOpt.getD 0) else tl.interpolated.server_update pos (velOpt.getD 0) } := by
  rw [move_tile_getElem?_mem (self_mem_get_all_connected _ _), h]
  simp [Vec2i.sub_self_eq, Vec2.add_cmul_zero]

/-- Concrete state for the C5 instances: local player 1 whose cursor rests at
(1,2), holding tile 0 with zero grab offset; tile 0 rests at (5,5). -/
def W5s : GameState := mkState 1 [(1, mkPlayer 1 2 (some (0, ⟨0, 0⟩)))] [mkTile 0 0 [] (some 1) 5 5 0] ⟨1, 1⟩ 0

/-- C5: (amended) the outbound ReleaseTile message emitted by the local release
operation, whenever the local player holds a tile, carries that tile's id
together with the local player's current interpolated cursor position, not the
tile's own visual position. -/
theorem claim_C5 (s : GameState) (p : Player) (tid : ℕ) (off : Vec2) (tl : Tile)
    (hp : lookupP s.players s.id = some p)
    (hg : p.tile_grabbed = some (tid, off))
    (ht : s.jigsaw.tiles[tid]? = some tl) :
    ∃ s2 rest, release s = some (s2, ClientMessage.ReleaseTile tid p.interpolation.get :: rest) := by
  simp only [release, hp, hg, ht]
  exact ⟨_, _, rfl⟩

/-- C5 witness: the amended theorem applied at the concrete state. -/
theorem claim_C5_witness :
    ∃ s2 rest, release W5s = some (s2, ClientMessage.ReleaseTile 0 (mkPlayer 1 2 (some (0, ⟨0, 0⟩))).interpolation.get :: rest) :=
  claim_C5 W5s (mkPlayer 1 2 (some (0, ⟨0, 0⟩))) 0 ⟨0, 0⟩ (mkTile 0 0 [] (some 1) 5 5 0)
    (by with_unfolding_all decide) rfl (by with_unfolding_all decide)

/-- C5 counterexample: at the concrete state the emitted ReleaseTile carries the
cursor position (1,2), while the released tile's visual position is (5,5), so the
message does not carry the tile's visual position as the original claim states. -/
theorem claim_C5_cex :
    ((release W5s).map (fun r => r.2.head?)) = some (some (ClientMessage.ReleaseTile 0 ⟨1, 2⟩)) ∧
    ((W5s.jigsaw.tiles[0]?).map (fun t => t.interpolated.get)) = some ⟨5, 5⟩ ∧
    ((⟨1, 2⟩ : Vec2) ≠ ⟨5, 5⟩) := by
  with_unfolding_all decide

/-- Concrete state for the C6 instances: remote player 2 holds tile 0 with grab
offset (3,0); tile 0 rests at (5,5). -/
def W6s : GameState := mkState 1 [(2, mkPlayer 0 0 (some (0, ⟨3, 0⟩)))] [mkTile 0 0 [] (some 2) 5 5 0] ⟨1, 1⟩ 0

/-- C6: (amended) the TileReleased handler clears the tile's grabbed_by, takes the
grab offset out of the releasing player's entry (zero when absent), and performs
exactly two group moves of the component: the first teleports it anchored at the
tile's own current visual position carrying the releasing player's current cursor
velocity, the second smoothly moves it to the server confirmed drop position PLUS
the taken grab offset, not to the drop position itself. -/
theorem claim_C6 (s : GameState) (player tile : ℕ) (pos : Vec2) (p : Player) (tl : Tile)
    (hp : lookupP s.players player = some p)
    (ht : s.jigsaw.tiles[tile]? = some tl) :
    ∃ s2, handleTileReleased s player tile pos = some s2 ∧
      ((s2.jigsaw.tiles[tile]?).map (fun t => t.grabbed_by)) = some none ∧
      ((s2.jigsaw.tiles[tile]?).map (fun t => t.interpolated)) =
        some ((tl.interpolated.teleport tl.interpolated.get p.interpolation.get_derivative).server_update (pos + (p.tile_grabbed.map (fun g => g.2)).getD 0) 0) ∧
      (∀ q, lookupP s2.players player = some q → q.tile_grabbed = none) := by
  have e1 : ensureP s.players player = s.players := ensureP_eq_of_lookup_some hp
  simp only [handleTileReleased, e1, hp, ht]
  refine ⟨_, rfl, ?_⟩
  have h1 : ({ s.jigsaw with tiles := updateAt s.jigsaw.tiles tile (fun t2 => { t2 with grabbed_by := none }) } : Jigsaw).tiles[tile]? = some { tl with grabbed_by := none } := by
    show (updateAt s.jigsaw.tiles tile (fun t2 => { t2 with grabbed_by := none }))[tile]? = some { tl with grabbed_by := none }
    rw [updateAt_getElem?_self, ht]; rfl
  have h2 := move_tile_anchor h1 tl.interpolated.get (some p.interpolation.get_derivative) true
  have h3 := move_tile_anchor h2 (pos + (p.tile_grabbed.map (fun g => g.2)).getD 0) none false
  refine ⟨?_, ?_, ?_⟩
  · rw [h3]; rfl
  · rw [h3]; rfl
  · intro q hq
    rw [lookupP_updateP_self, hp] at hq
    injection hq with hq
    subst hq
    rfl

/-- C6 witness: the amended theorem applied at the concrete state. -/
theorem claim_C6_witness :
    ∃ s2, handleTileReleased W6s 2 0 ⟨7, 7⟩ = some s2 ∧
      ((s2.jigsaw.tiles[0]?).map (fun t => t.grabbed_by)) = some none ∧
      ((s2.jigsaw.tiles[0]?).map (fun t => t.interpolated)) =
        some (((mkTile 0 0 [] (some 2) 5 5 0).interpolated.teleport (mkTile 0 0 [] (some 2) 5 5 0).interpolated.get (mkPlayer 0 0 (some (0, ⟨3, 0⟩))).interpolation.get_derivative).server_update (⟨7, 7⟩ + ((mkPlayer 0 0 (some (0, ⟨3, 0⟩))).tile_grabbed.map (fun g => g.2)).getD 0) 0) ∧
      (∀ q, lookupP s2.players 2 = some q → q.tile_grabbed = none) :=
  claim_C6 W6s 2 0 ⟨7, 7⟩ (mkPlayer 0 0 (some (0, ⟨3, 0⟩))) (mkTile 0 0 [] (some 2) 5 5 0)
    (by with_unfolding_all decide) (by with_unfolding_all decide)

/-- C6 counterexample: at the concrete state the second, smoothed move targets the
drop position (7,7) plus the grab offset (3,0), i.e. (10,7), and not the server
confirmed drop position (7,7) that the original claim names as the target. -/
theorem claim_C6_cex :
    ((handleTileReleased W6s 2 0 ⟨7, 7⟩).map (fun s2 => (s2.jigsaw.tiles[0]?).map (fun t => t.interpolated.targetPos))) = some (some ⟨10, 7⟩) ∧
    ((⟨10, 7⟩ : Vec2) ≠ ⟨7, 7⟩) := by
  with_unfolding_all decide

/-- Concrete state for the C9 instances: empty player table, one tile. -/
def W9s : GameState := mkState 1 [] [mkTile 0 0 [] none 0 0 0] ⟨1, 1⟩ 0

/-- C9: (amended) an inbound UpdatePos or TileReleased naming an unknown player id
creates the Player entry lazily and completes, and PlayerDisconnected removes the
entry; but a TileGrabbed naming an unknown player id does not create the entry:
its handler reaches the failure branch, because the source unwraps the missing
table entry instead of calling get_player. -/
theorem claim_C9 (s : GameState) (i : ℕ) (pos off : Vec2) (tile : ℕ) (tl : Tile)
    (hi : lookupP s.players i = none) (ht : s.jigsaw.tiles[tile]? = some tl) :
    ((lookupP (handleUpdatePos s i pos).players i).isSome = true) ∧
    (∃ s2, handleTileReleased s i tile pos = some s2 ∧ (lookupP s2.players i).isSome = true) ∧
    (handleTileGrabbed s i tile off = none) ∧
    (lookupP (handlePlayerDisconnected s i).players i = none) := by
  refine ⟨?_, ?_, ?_, ?_⟩
  · simp only [handleUpdatePos]
    rw [lookupP_updateP_self, lookupP_ensureP_self]
    rfl
  · simp only [handleTileReleased, lookupP_ensureP_self, hi, ht]
    refine ⟨_, rfl, ?_⟩
    rw [lookupP_updateP_self, lookupP_ensureP_self]
    rfl
  · simp only [handleTileGrabbed, hi]
  · simp only [handlePlayerDisconnected]
    exact lookupP_removeP_self _ _

/-- C9 witness: the amended theorem applied at the concrete state with the unknown
player id 7. -/
theorem claim_C9_witness :
    ((lookupP (handleUpdatePos W9s 7 ⟨1, 1⟩).players 7).isSome = true) ∧
    (∃ s2, handleTileReleased W9s 7 0 ⟨1, 1⟩ = some s2 ∧ (lookupP s2.players 7).isSome = true) ∧
    (handleTileGrabbed W9s 7 0 ⟨2, 2⟩ = none) ∧
    (lookupP (handlePlayerDisconnected W9s 7).players 7 = none) :=
  claim_C9 W9s 7 ⟨1, 1⟩ ⟨2, 2⟩ 0 (mkTile 0 0 [] none 0 0 0)
    (by with_unfolding_all decide) (by with_unfolding_all decide)

/-- C9 counterexample: a TileGrabbed notification naming the unknown player id 7
makes the handler reach the failure branch (the source panics on the unwrap of
the missing player entry), so the original claim that all three message kinds
lazily create the entry and complete without failure is false. -/
theorem claim_C9_cex : handleTileGrabbed W9s 7 0 ⟨0, 0⟩ = none := by
  with_unfolding_all decide

/-- Concrete state for the C4 instances: ten tiles; tile 5 has grid position
(2,2) and rests at (0,0), tile 9 has grid position (2,3) and rests at (10,10);
the others are far away in the grid and unconnected. -/
def W4s : GameState := mkState 1 [] [mkTile 20 50 [] none 0 0 0, mkTile 21 50 [] none 0 0 0, mkTile 22 50 [] none 0 0 0, mkTile 23 50 [] none 0 0 0, mkTile 24 50 [] none 0 0 0, mkTile 2 2 [] none 0 0 0, mkTile 26 50 [] none 0 0 0, mkTile 27 50 [] none 0 0 0, mkTile 28 50 [] none 0 0 0, mkTile 2 3 [] none 10 10 0] ⟨1, 1⟩ 0

/-- C4: (amended) when a ConnectTiles(a, b) notification arrives whose grid delta
of a minus b is a unit step along the vertical axis, it is tile a — the tile
named first — whose component gets repositioned: tile a's interpolator target
becomes tile b's current visual position plus one tile-size increment along the
vertical axis in the sign of (grid a − grid b), applied smoothed (server_update,
teleport false), leaving tile a's current visual position unchanged. -/
theorem claim_C4 (s : GameState) (a b : ℕ) (ta tb : Tile)
    (hA : s.jigsaw.tiles[a]? = some ta) (hB : s.jigsaw.tiles[b]? = some tb)
    (hd0 : (ta.puzzle_pos - tb.puzzle_pos).x = 0)
    (hd1 : (ta.puzzle_pos - tb.puzzle_pos).y.natAbs = 1) :
    ∃ s2, handleConnectTiles s a b = some s2 ∧
      ((s2.jigsaw.tiles[a]?).map (fun t => t.interpolated.targetPos)) =
        some (tb.interpolated.get + ⟨0, s.jigsaw.tile_size.y * (((ta.puzzle_pos - tb.puzzle_pos).y.sign : ℤ) : ℚ)⟩) ∧
      ((s2.jigsaw.tiles[a]?).map (fun t => t.interpolated.pos)) = ((s.jigsaw.tiles[a]?).map (fun t => t.interpolated.pos)) := by
  have hab : a ≠ b := by
    intro he
    subst he
    rw [hA] at hB
    injection hB with hB
    rw [← hB, Vec2i.sub_self_eq] at hd1
    exact absurd hd1 (by decide)
  simp only [handleConnectTiles, hA, hB]
  rw [if_pos (And.intro hd0 hd1)]
  refine ⟨_, rfl, ?_, ?_⟩
  · have h1 : ({ s.jigsaw with tiles := updateAt (updateAt s.jigsaw.tiles a (fun t => { t with connected_to := t.connected_to ++ [b] })) b (fun t => { t with connected_to := t.connected_to ++ [a] }) } : Jigsaw).tiles[a]? = some { ta with connected_to := ta.connected_to ++ [b] } := by
      show (updateAt (updateAt s.jigsaw.tiles a (fun t => { t with connected_to := t.connected_to ++ [b] })) b (fun t => { t with connected_to := t.connected_to ++ [a] }))[a]? = some { ta with connected_to := ta.connected_to ++ [b] }
      rw [updateAt_getElem?_ne _ _ _ _ (Ne.symm hab), updateAt_getElem?_self, hA]
      rfl
    have h2 := move_tile_anchor h1 (tb.interpolated.get + ⟨0, s.jigsaw.tile_size.y * (((ta.puzzle_pos - tb.puzzle_pos).y.sign : ℤ) : ℚ)⟩) none false
    rw [h2]
    rfl
  · have h1 : ({ s.jigsaw with tiles := updateAt (updateAt s.jigsaw.tiles a (fun t => { t with connected_to := t.connected_to ++ [b] })) b (fun t => { t with connected_to := t.connected_to ++ [a] }) } : Jigsaw).tiles[a]? = some { ta with connected_to := ta.connected_to ++ [b] } := by
      show (updateAt (updateAt s.jigsaw.tiles a (fun t => { t with connected_to := t.connected_to ++ [b] })) b (fun t => { t with connected_to := t.connected_to ++ [a] }))[a]? = some { ta with connected_to := ta.connected_to ++ [b] }
      rw [updateAt_getElem?_ne _ _ _ _ (Ne.symm hab), updateAt_getElem?_self, hA]
      rfl
    have h2 := move_tile_anchor h1 (tb.interpolated.get + ⟨0, s.jigsaw.tile_size.y * (((ta.puzzle_pos - tb.puzzle_pos).y.sign : ℤ) : ℚ)⟩) none false
    rw [h2]
    rfl

/-- C4 witness: the amended theorem applied at the concrete ConnectTiles(5, 9)
scenario. -/
theorem claim_C4_witness :
    ∃ s2, handleConnectTiles W4s 5 9 = some s2 ∧
      ((s2.jigsaw.tiles[5]?).map (fun t => t.interpolated.targetPos)) =
        some ((mkTile 2 3 [] none 10 10 0).interpolated.get + ⟨0, W4s.jigsaw.tile_size.y * ((((mkTile 2 2 [] none 0 0 0).puzzle_pos - (mkTile 2 3 [] none 10 10 0).puzzle_pos).y.sign : ℤ) : ℚ)⟩) ∧
      ((s2.jigsaw.tiles[5]?).map (fun t => t.interpolated.pos)) = ((W4s.jigsaw.tiles[5]?).map (fun t => t.interpolated.pos)) :=
  claim_C4 W4s 5 9 (mkTile 2 2 [] none 0 0 0) (mkTile 2 3 [] none 10 10 0)
    (by with_unfolding_all decide) (by with_unfolding_all decide)
    (by with_unfolding_all decide) (by with_unfolding_all decide)

/-- C4 counterexample: at the concrete ConnectTiles(5, 9) scenario with tile 5 at
grid (2,2) resting at (0,0) and tile 9 at grid (2,3) resting at (10,10), the
handler leaves tile 9's target at its own current position (10,10) — not at tile
5's position plus one tile-size increment upward, which would be (0,1) — and
instead repositions tile 5, whose target becomes (10,9). -/
theorem claim_C4_cex :
    ((handleConnectTiles W4s 5 9).map (fun s2 =>
      ((s2.jigsaw.tiles[9]?).map (fun t => t.interpolated.targetPos),
       (s2.jigsaw.tiles[5]?).map (fun t => t.interpolated.targetPos)))) = some (some ⟨10, 10⟩, some ⟨10, 9⟩) ∧
    ((⟨10, 10⟩ : Vec2) ≠ ⟨0, 1⟩) := by
  with_unfolding_all decide

/-- Concrete state for the C3 instances: local player 1, one tile at the origin
already grabbed by the remote player 2. -/
def W3s : GameState := mkState 1 [(1, mkPlayer 0 0 none)] [mkTile 0 0 [] (some 2) 0 0 0] ⟨1, 1⟩ 0

/-- C3: (amended) a local click whose hover resolution finds a tile emits a
GrabTile request for it and optimistically marks it grabbed by the local player
regardless of the tile's current grabbed_by value: the source performs no
client side check against a grab by another player, so an existing grab is
simply overwritten. -/
theorem claim_C3 (s : GameState) (pos : Vec2) (i : ℕ) (tl : Tile) (q : Player)
    (hh : hovered_tile s pos = some i)
    (ht : s.jigsaw.tiles[i]? = some tl)
    (hq : lookupP s.players s.id = some q) :
    ∃ s2, click s pos = some (s2, [ClientMessage.GrabTile i (tl.interpolated.get - pos)]) ∧
      ((s2.jigsaw.tiles[i]?).map (fun t => t.grabbed_by)) = some (some s.id) := by
  simp only [click, hh, ht, hq]
  refine ⟨_, rfl, ?_⟩
  have h1 : (updateAt s.jigsaw.tiles i (fun t => { t with grabbed_by := some s.id }))[i]? = some { tl with grabbed_by := some s.id } := by
    rw [updateAt_getElem?_self, ht]; rfl
  rw [foldUpd_getElem?_mem (nodup_get_all_connected _ _) (self_mem_get_all_connected _ _), h1]
  rfl

/-- C3 witness: the amended theorem applied at the concrete state, where tile 0 is
held by remote player 2 and the local player 1 clicks it anyway. -/
theorem claim_C3_witness :
    ∃ s2, click W3s ⟨0, 0⟩ = some (s2, [ClientMessage.GrabTile 0 ((mkTile 0 0 [] (some 2) 0 0 0).interpolated.get - ⟨0, 0⟩)]) ∧
      ((s2.jigsaw.tiles[0]?).map (fun t => t.grabbed_by)) = some (some W3s.id) :=
  claim_C3 W3s ⟨0, 0⟩ 0 (mkTile 0 0 [] (some 2) 0 0 0) (mkPlayer 0 0 none)
    (by with_unfolding_all decide) (by with_unfolding_all decide) (by with_unfolding_all decide)

/-- C3 counterexample: tile 0 has grabbed_by already set to player 2 while the
local player is 1, yet the click emits a GrabTile request for tile 0 and
overwrites grabbed_by with 1, so the original claim that no request is emitted
and no optimistic mark is made in this situation is false. -/
theorem claim_C3_cex :
    ((W3s.jigsaw.tiles[0]?).map (fun t => t.grabbed_by)) = some (some 2) ∧
    W3s.id = 1 ∧
    ((click W3s ⟨0, 0⟩).map (fun r => (r.2, (r.1.jigsaw.tiles[0]?).map (fun t => t.grabbed_by)))) = some ([ClientMessage.GrabTile 0 ⟨0, 0⟩], some (some 1)) := by
  with_unfolding_all decide

/-- Symmetry of the connection relation over the whole tile collection. -/
def SymmetricConn (tiles : List Tile) : Prop :=
  ∀ x, x < tiles.length → ∀ y, y < tiles.length → (y ∈ connList tiles x ↔ x ∈ connList tiles y)

instance (tiles : List Tile) : Decidable (SymmetricConn tiles) := by
  unfold SymmetricConn; infer_instance

theorem lt_length_of_getElem?_some {tiles : List Tile} {i : ℕ} {t : Tile}
    (h : tiles[i]? = some t) : i < tiles.length := by
  by_contra hc
  rw [List.getElem?_eq_none (Nat.le_of_not_lt hc)] at h
  cases h

theorem symmetricConn_congr {ts1 ts2 : List Tile} (hlen : ts2.length = ts1.length)
    (hc : ∀ t, connList ts2 t = connList ts1 t) (hs : SymmetricConn ts1) :
    SymmetricConn ts2 := by
  intro x hx y hy
  rw [hc, hc]
  exact hs x (hlen ▸ hx) y (hlen ▸ hy)

theorem connList_move_tile (j : Jigsaw) (tile : ℕ) (pos : Vec2)
    (velOpt : Option Vec2) (snap : Bool) (t : ℕ) :
    connList (move_tile j tile pos velOpt snap).tiles t = connList j.tiles t := by
  unfold connList
  rw [move_tile_connected_to]

theorem connList_connect {tiles : List Tile} {a b : ℕ} {ta tb : Tile}
    (hA : tiles[a]? = some ta) (hB : tiles[b]? = some tb) (hab : a ≠ b) (x : ℕ) :
    connList (updateAt (updateAt tiles a (fun t => { t with connected_to := t.connected_to ++ [b] })) b (fun t => { t with connected_to := t.connected_to ++ [a] })) x =
      if x = a then connList tiles a ++ [b] else if x = b then connList tiles b ++ [a] else connList tiles x := by
  by_cases hxa : x = a
  · subst hxa
    rw [if_pos rfl]
    unfold connList
    rw [updateAt_getElem?_ne _ _ _ _ (Ne.symm hab), updateAt_getElem?_self, hA]
    rfl
  · by_cases hxb : x = b
    · subst hxb
      rw [if_neg hxa, if_pos rfl]
      unfold connList
      rw [updateAt_getElem?_self, updateAt_getElem?_ne _ _ _ _ hab, hB]
      rfl
    · rw [if_neg hxa, if_neg hxb]
      unfold connList
      rw [updateAt_getElem?_ne _ _ _ _ (fun he => hxb he.symm), updateAt_getElem?_ne _ _ _ _ (fun he => hxa he.symm)]

theorem symmetricConn_connect {tiles : List Tile} {a b : ℕ} {ta tb : Tile}
    (hA : tiles[a]? = some ta) (hB : tiles[b]? = some tb) (hab : a ≠ b)
    (hs : SymmetricConn tiles) :
    SymmetricConn (updateAt (updateAt tiles a (fun t => { t with connected_to := t.connected_to ++ [b] })) b (fun t => { t with connected_to := t.connected_to ++ [a] })) := by
  have ha : a < tiles.length := lt_length_of_getElem?_some hA
  have hb : b < tiles.length := lt_length_of_getElem?_some hB
  intro x hx y hy
  rw [length_updateAt, length_updateAt] at hx hy
  rw [connList_connect hA hB hab x, connList_connect hA hB hab y]
  have h1 := hs x hx y hy
  have h2 := hs a ha y hy
  have h3 := hs b hb y hy
  have h4 := hs x hx a ha
  have h5 := hs x hx b hb
  by_cases hxa : x = a <;> by_cases hxb : x = b <;> by_cases hya : y = a <;> by_cases hyb : y = b <;>
    simp_all [List.mem_append, List.mem_singleton]

theorem symmetric_handleConnectTiles {s s2 : GameState} {a b : ℕ}
    (h : handleConnectTiles s a b = some s2) (hs : SymmetricConn s.jigsaw.tiles) :
    SymmetricConn s2.jigsaw.tiles := by
  cases hA : s.jigsaw.tiles[a]? with
  | none => simp only [handleConnectTiles, hA] at h; cases h
  | some ta =>
    cases hB : s.jigsaw.tiles[b]? with
    | none => simp only [handleConnectTiles, hA, hB] at h; cases h
    | some tb =>
      simp only [handleConnectTiles, hA, hB] at h
      by_cases hc1 : (ta.puzzle_pos - tb.puzzle_pos).x = 0 ∧ (ta.puzzle_pos - tb.puzzle_pos).y.natAbs = 1
      · rw [if_pos hc1] at h
        have hne : a ≠ b := by
          intro he
          subst he
          rw [hA] at hB
          injection hB with hB
          rw [← hB, Vec2i.sub_self_eq] at hc1
          exact absurd hc1.2 (by decide)
        injection h with h
        subst h
        refine symmetricConn_congr ?_ (fun t => connList_move_tile _ _ _ _ _ t) (symmetricConn_connect hA hB hne hs)
        rw [move_tile_length, length_updateAt, length_updateAt]
      · rw [if_neg hc1] at h
        by_cases hc2 : (ta.puzzle_pos - tb.puzzle_pos).y = 0 ∧ (ta.puzzle_pos - tb.puzzle_pos).x.natAbs = 1
        · rw [if_pos hc2] at h
          have hne : a ≠ b := by
            intro he
            subst he
            rw [hA] at hB
            injection hB with hB
            rw [← hB, Vec2i.sub_self_eq] at hc2
            exact absurd hc2.2 (by decide)
          injection h with h
          subst h
          refine symmetricConn_congr ?_ (fun t => connList_move_tile _ _ _ _ _ t) (symmetricConn_connect hA hB hne hs)
          rw [move_tile_length, length_updateAt, length_updateAt]
        · rw [if_neg hc2] at h
          cases h

/-- C7: after any sequence of successfully handled ConnectTiles notifications
starting from a state whose connection relation is symmetric, the connection
relation is still symmetric: tile x lists tile y iff tile y lists tile x. -/
theorem claim_C7 (ops : List (ℕ × ℕ)) (s s2 : GameState)
    (h : applyConnects ops s = some s2)
    (hs : SymmetricConn s.jigsaw.tiles) : SymmetricConn s2.jigsaw.tiles := by
  induction ops generalizing s with
  | nil =>
    unfold applyConnects at h
    injection h with h
    subst h
    exact hs
  | cons op ops ih =>
    unfold applyConnects at h
    cases hc : handleConnectTiles s op.1 op.2 with
    | none => rw [hc] at h; cases h
    | some s3 =>
      rw [hc] at h
      exact ih s3 h (symmetric_handleConnectTiles hc hs)

/-- Concrete state for the C7 witness: two vertically adjacent unconnected tiles. -/
def W7s : GameState := mkState 1 [] [mkTile 0 0 [] none 0 0 0, mkTile 0 1 [] none 5 5 0] ⟨1, 1⟩ 0

/-- C7 witness: the theorem applied to the concrete state and the one element
sequence connecting tiles 0 and 1. -/
theorem claim_C7_witness :
    ∃ s2, applyConnects [(0, 1)] W7s = some s2 ∧ SymmetricConn s2.jigsaw.tiles := by
  cases hx : applyConnects [(0, 1)] W7s with
  | none => exact absurd hx (by with_unfolding_all decide)
  | some s2 => exact ⟨s2, rfl, claim_C7 [(0, 1)] W7s s2 hx (by with_unfolding_all decide)⟩

theorem pickLastMax_spec :
    ∀ (l : List (ℕ × ℚ)) (acc : Option (ℕ × ℚ)) (c : ℕ × ℚ),
      pickLastMax acc l = some c →
      (c ∈ l ∨ acc = some c) ∧ (∀ d ∈ l, d.2 ≤ c.2) ∧ (∀ b, acc = some b → b.2 ≤ c.2) := by
  intro l
  induction l with
  | nil =>
    intro acc c h
    cases acc with
    | none => cases h
    | some b0 =>
      refine ⟨Or.inr h, by simp, fun b hb => ?_⟩
      rw [hb] at h
      injection h with h
      rw [h]
  | cons d rest ih =>
    intro acc c h
    cases acc with
    | none =>
      simp only [pickLastMax] at h
      obtain ⟨hmem, hub, hacc⟩ := ih (some d) c h
      refine ⟨?_, ?_, ?_⟩
      · rcases hmem with hm | hm
        · exact Or.inl (List.mem_cons_of_mem _ hm)
        · injection hm with hm
          exact Or.inl (hm ▸ List.mem_cons_self _ _)
      · intro e he
        rcases List.mem_cons.mp he with rfl | he2
        · exact hacc _ rfl
        · exact hub _ he2
      · intro b hb
        cases hb
    | some b0 =>
      simp only [pickLastMax] at h
      by_cases hcmp : b0.2 ≤ d.2
      · rw [if_pos hcmp] at h
        obtain ⟨hmem, hub, hacc⟩ := ih (some d) c h
        refine ⟨?_, ?_, ?_⟩
        · rcases hmem with hm | hm
          · exact Or.inl (List.mem_cons_of_mem _ hm)
          · injection hm with hm
            exact Or.inl (hm ▸ List.mem_cons_self _ _)
        · intro e he
          rcases List.mem_cons.mp he with rfl | he2
          · exact hacc _ rfl
          · exact hub _ he2
        · intro b hb
          injection hb with hb
          subst hb
          exact le_trans hcmp (hacc _ rfl)
      · rw [if_neg hcmp] at h
        obtain ⟨hmem, hub, hacc⟩ := ih (some b0) c h
        refine ⟨?_, ?_, ?_⟩
        · rcases hmem with hm | hm
          · exact Or.inl (List.mem_cons_of_mem _ hm)
          · exact Or.inr hm
        · intro e he
          rcases List.mem_cons.mp he with rfl | he2
          · exact le_trans (le_of_not_le hcmp) (hacc _ rfl)
          · exact hub _ he2
        · exact hacc

theorem mem_hovCandidates {j : Jigsaw} {p : Vec2} {x : ℕ} {k : ℚ} :
    (x, k) ∈ hovCandidates j p ↔
      ∃ tx, j.tiles[x]? = some tx ∧ tileContains j.tile_size tx p = true ∧ k = tx.last_interaction_time := by
  unfold hovCandidates
  rw [List.mem_filterMap]
  constructor
  · rintro ⟨i, _, hi⟩
    cases ht : j.tiles[i]? with
    | none => rw [ht] at hi; cases hi
    | some t =>
      rw [ht] at hi
      by_cases hc : tileContains j.tile_size t p
      · simp only [Option.some_bind, if_pos hc] at hi
        injection hi with hi
        obtain ⟨rfl, rfl⟩ := Prod.mk.injEq .. ▸ And.intro (congrArg Prod.fst hi) (congrArg Prod.snd hi)
        exact ⟨t, ht, hc, rfl⟩
      · simp only [Option.some_bind, if_neg hc] at hi
        cases hi
  · rintro ⟨tx, hx, hc, rfl⟩
    refine ⟨x, List.mem_range.mpr (lt_length_of_getElem?_some hx), ?_⟩
    rw [hx]
    simp [hc]

/-- Claim side notion for C8: the greatest last_interaction_time occurring in the
connected component of tile i (zero floor for an empty read). -/
def compMaxTime (j : Jigsaw) (i : ℕ) : ℚ :=
  ((get_all_connected j.tiles i).filterMap (fun t => (j.tiles[t]?).map Tile.last_interaction_time)).foldl max 0

/-- C8: (amended) hover resolution returns a tile whose bounding shape contains
the query point and whose OWN last_interaction_time is greatest among all
containing tiles (the source compares the tile's own timestamp, not its
connected component's; ties go to the last such tile in index order), and a
click grabs exactly the tile that hover resolution returns. -/
theorem claim_C8 (s : GameState) (p : Vec2) (i : ℕ)
    (hh : hovered_tile s p = some i) :
    (∃ tl, s.jigsaw.tiles[i]? = some tl ∧ tileContains s.jigsaw.tile_size tl p = true ∧
      (∀ (j2 : ℕ) (tj : Tile), s.jigsaw.tiles[j2]? = some tj → tileContains s.jigsaw.tile_size tj p = true →
        tj.last_interaction_time ≤ tl.last_interaction_time)) ∧
    (∀ q, lookupP s.players s.id = some q →
      ∃ st2 off, click s p = some (st2, [ClientMessage.GrabTile i off])) := by
  have hh0 := hh
  unfold hovered_tile at hh
  cases hpick : pickLastMax none (hovCandidates s.jigsaw p) with
  | none => rw [hpick] at hh; cases hh
  | some c =>
    rw [hpick] at hh
    injection hh with hh
    obtain ⟨hmem, hub, _⟩ := pickLastMax_spec _ _ _ hpick
    rcases hmem with hm | hm
    · cases c with
      | mk c1 c2 =>
        cases hh
        obtain ⟨tl, htl, hcont, hk⟩ := mem_hovCandidates.mp hm
        subst hk
        refine ⟨⟨tl, htl, hcont, ?_⟩, ?_⟩
        · intro j2 tj htj hcj
          exact hub (j2, tj.last_interaction_time) (mem_hovCandidates.mpr ⟨tj, htj, hcj, rfl⟩)
        · intro q hq
          simp only [click, hh0, htl, hq]
          exact ⟨_, _, rfl⟩
    · cases hm

/-- Concrete state for the C8 instances: tiles 0 and 1 are joined, with tile 0
far away carrying the most recent interaction time 5 and tile 1 at the origin
carrying time 1; the unconnected tile 2 overlaps tile 1 and carries time 3. -/
def W8s : GameState := mkState 1 [(1, mkPlayer 0 0 none)] [mkTile 0 0 [1] none 100 100 5, mkTile 0 1 [0] none 0 0 1, mkTile 5 5 [] none (1/10) 0 3] ⟨1, 1⟩ 0

/-- C8 witness: the amended theorem applied at the concrete state, where hover
resolution at the origin returns tile 2. -/
theorem claim_C8_witness :
    (∃ tl, W8s.jigsaw.tiles[2]? = some tl ∧ tileContains W8s.jigsaw.tile_size tl ⟨0, 0⟩ = true ∧
      (∀ (j2 : ℕ) (tj : Tile), W8s.jigsaw.tiles[j2]? = some tj → tileContains W8s.jigsaw.tile_size tj ⟨0, 0⟩ = true →
        tj.last_interaction_time ≤ tl.last_interaction_time)) ∧
    (∀ q, lookupP W8s.players W8s.id = some q →
      ∃ st2 off, click W8s ⟨0, 0⟩ = some (st2, [ClientMessage.GrabTile 2 off])) :=
  claim_C8 W8s ⟨0, 0⟩ 2 (by with_unfolding_all decide)

/-- C8 counterexample: at the concrete state the query point (0,0) lies inside
the shapes of both tile 1 and tile 2; tile 1's connected component carries the
most recent interaction time (5, via its partner tile 0) while tile 2's carries
only 3, yet hover resolution returns tile 2, because the source compares each
tile's own timestamp (1 versus 3), not the component's. -/
theorem claim_C8_cex :
    hovered_tile W8s ⟨0, 0⟩ = some 2 ∧
    ((2 : ℕ) ≠ 1) ∧
    ((W8s.jigsaw.tiles[1]?).map (fun t => tileContains W8s.jigsaw.tile_size t ⟨0, 0⟩)) = some true ∧
    compMaxTime W8s.jigsaw 2 < compMaxTime W8s.jigsaw 1 := by
  with_unfolding_all decide

/-- Claim side for C1: the grid position delta is a unit vector along exactly
one axis. -/
def gridAdjacent (d : Vec2i) : Prop := d.x.natAbs + d.y.natAbs = 1

instance (d : Vec2i) : Decidable (gridAdjacent d) := by
  unfold gridAdjacent; infer_instance

/-- Claim side for C1: the perfect snap offset implied by a grid delta — one
tile size step along each axis scaled by the sign of that axis of the delta
(for a grid adjacent delta the off axis sign is zero, so this is one step along
the single axis of the delta). -/
def snapOffset (ts : Vec2) (d : Vec2i) : Vec2 :=
  ⟨ts.x * ((d.x.sign : ℤ) : ℚ), ts.y * ((d.y.sign : ℤ) : ℚ)⟩

/-- Claim side for C1: the snap condition between the scanned tile (tile) and
the other tile with index i — not already listed in connected_to, grid adjacent,
and the offset from the perfectly snapped position within the snap threshold. -/
def specSnap (j : Jigsaw) (tile other : Tile) (i : ℕ) : Prop :=
  ¬ i ∈ tile.connected_to ∧ gridAdjacent (tile.puzzle_pos - other.puzzle_pos) ∧
    Vec2.sqLen (tile.interpolated.get - other.interpolated.get - snapOffset j.tile_size (tile.puzzle_pos - other.puzzle_pos)) ≤ SNAP_DISTANCE * SNAP_DISTANCE

instance (j : Jigsaw) (tile other : Tile) (i : ℕ) : Decidable (specSnap j tile other i) := by
  unfold specSnap; infer_instance

theorem gridAdjacent_cases {d : Vec2i} :
    gridAdjacent d ↔ (d.x = 0 ∧ d.y.natAbs = 1) ∨ (d.y = 0 ∧ d.x.natAbs = 1) := by
  unfold gridAdjacent
  omega

theorem snapOffset_vertical (ts : Vec2) {d : Vec2i} (h : d.x = 0) :
    snapOffset ts d = ⟨0, ts.y * ((d.y.sign : ℤ) : ℚ)⟩ := by
  unfold snapOffset
  rw [h]
  simp

theorem snapOffset_horizontal (ts : Vec2) {d : Vec2i} (h : d.y = 0) :
    snapOffset ts d = ⟨ts.x * ((d.x.sign : ℤ) : ℚ), 0⟩ := by
  unfold snapOffset
  rw [h]
  simp

theorem snapCheck_eq_some_iff {j : Jigsaw} {t : ℕ} {tile other : Tile} {i : ℕ} {m : ClientMessage} :
    snapCheck j t tile i other = some m ↔
      m = ClientMessage.ConnectTiles t i ∧ specSnap j tile other i := by
  unfold snapCheck
  by_cases hcon : tile.connected_to.contains i = true
  · have hmem : i ∈ tile.connected_to := by simpa using hcon
    rw [if_pos hcon]
    simp [specSnap, hmem]
  · have hmem : ¬ i ∈ tile.connected_to := by simpa using hcon
    rw [if_neg hcon]
    by_cases h1 : ((tile.puzzle_pos - other.puzzle_pos).x = 0 ∧ (tile.puzzle_pos - other.puzzle_pos).y.natAbs = 1)
    · have hga : gridAdjacent (tile.puzzle_pos - other.puzzle_pos) := gridAdjacent_cases.mpr (Or.inl h1)
      have hoff := snapOffset_vertical j.tile_size h1.1
      rw [if_pos h1]
      by_cases h2 : Vec2.sqLen (tile.interpolated.get - other.interpolated.get - ⟨0, j.tile_size.y * (((tile.puzzle_pos - other.puzzle_pos).y.sign : ℤ) : ℚ)⟩) ≤ SNAP_DISTANCE * SNAP_DISTANCE
      · rw [if_pos h2]
        simp only [Option.some.injEq, specSnap, hoff]
        constructor
        · intro h
          exact ⟨h.symm, hmem, hga, h2⟩
        · intro h
          exact h.1.symm
      · rw [if_neg h2]
        simp only [specSnap, hoff]
        constructor
        · intro h
          cases h
        · intro h
          exact absurd h.2.2.2 h2
    · by_cases h2 : ((tile.puzzle_pos - other.puzzle_pos).y = 0 ∧ (tile.puzzle_pos - other.puzzle_pos).x.natAbs = 1)
      · have hga : gridAdjacent (tile.puzzle_pos - other.puzzle_pos) := gridAdjacent_cases.mpr (Or.inr h2)
        have hoff := snapOffset_horizontal j.tile_size h2.1
        rw [if_neg h1, if_pos h2]
        by_cases h3 : Vec2.sqLen (tile.interpolated.get - other.interpolated.get - ⟨j.tile_size.x * (((tile.puzzle_pos - other.puzzle_pos).x.sign : ℤ) : ℚ), 0⟩) ≤ SNAP_DISTANCE * SNAP_DISTANCE
        · rw [if_pos h3]
          simp only [Option.some.injEq, specSnap, hoff]
          constructor
          · intro h
            exact ⟨h.symm, hmem, hga, h3⟩
          · intro h
            exact h.1.symm
        · rw [if_neg h3]
          simp only [specSnap, hoff]
          constructor
          · intro h
            cases h
          · intro h
            exact absurd h.2.2.2 h3
      · have hga : ¬ gridAdjacent (tile.puzzle_pos - other.puzzle_pos) := fun hga =>
          (gridAdjacent_cases.mp hga).elim h1 h2
        rw [if_neg h1, if_neg h2]
        simp [specSnap, hga]

theorem mem_snapMsgsFor {j : Jigsaw} {t : ℕ} {tt : Tile} (htt : j.tiles[t]? = some tt) (x u : ℕ) :
    ClientMessage.ConnectTiles x u ∈ snapMsgsFor j t ↔
      x = t ∧ ∃ uu, j.tiles[u]? = some uu ∧ specSnap j tt uu u := by
  unfold snapMsgsFor
  rw [htt, List.mem_filterMap]
  constructor
  · rintro ⟨i, _, hi⟩
    cases hu : j.tiles[i]? with
    | none => rw [hu] at hi; cases hi
    | some other =>
      rw [hu] at hi
      simp only [Option.some_bind] at hi
      obtain ⟨hm, hsnap⟩ := snapCheck_eq_some_iff.mp hi
      injection hm with hm1 hm2
      subst hm1
      subst hm2
      exact ⟨rfl, other, hu, hsnap⟩
  · rintro ⟨rfl, uu, hu, hsnap⟩
    refine ⟨u, List.mem_range.mpr (lt_length_of_getElem?_some hu), ?_⟩
    rw [hu]
    simp only [Option.some_bind]
    exact snapCheck_eq_some_iff.mpr ⟨rfl, hsnap⟩

/-- C1: at the moment of a local release while holding a tile, the emitted
message list contains an outbound ConnectTiles(t, u) exactly for those pairs
where t is in the just released connected component and u is a tile that is not
already listed in t's connected_to, the grid delta between t and u is a unit
vector along exactly one axis, and the offset of t's visual position from the
perfectly snapped position next to u has squared length at most the snap
threshold squared; moreover no ConnectTiles request is ever emitted outside the
release operation — a click and a cursor move emit none. -/
theorem claim_C1 (s : GameState) (p : Player) (tid : ℕ) (off : Vec2) (tl : Tile)
    (hp : lookupP s.players s.id = some p)
    (hg : p.tile_grabbed = some (tid, off))
    (ht : s.jigsaw.tiles[tid]? = some tl) :
    (∀ s2 msgs, release s = some (s2, msgs) →
      ∀ t u, ClientMessage.ConnectTiles t u ∈ msgs ↔
        (t ∈ get_all_connected s2.jigsaw.tiles tid ∧
         ∃ tt uu, s2.jigsaw.tiles[t]? = some tt ∧ s2.jigsaw.tiles[u]? = some uu ∧ specSnap s2.jigsaw tt uu u)) ∧
    (∀ pos s2 msgs, click s pos = some (s2, msgs) → ∀ t u, ClientMessage.ConnectTiles t u ∉ msgs) ∧
    (∀ w t u, ClientMessage.ConnectTiles t u ∉ (update_cursor s w).2) := by
  refine ⟨?_, ?_, ?_⟩
  · intro s2 msgs hrel t u
    simp only [release, hp, hg, ht] at hrel
    injection hrel with hrel
    injection hrel with h1 h2
    subst h1
    subst h2
    rw [List.mem_cons]
    constructor
    · intro hm
      rcases hm with hm | hm
      · cases hm
      · obtain ⟨a, hain, hmem⟩ := List.mem_flatMap.mp hm
        have hlen : tid < (updateAt s.jigsaw.tiles tid (fun t2 => { t2 with grabbed_by := none })).length := by
          rw [length_updateAt]
          exact lt_length_of_getElem?_some ht
        have halen : a < (updateAt s.jigsaw.tiles tid (fun t2 => { t2 with grabbed_by := none })).length :=
          get_all_connected_lt hlen a hain
        have hta := List.getElem?_eq_getElem halen
        obtain ⟨hxt, uu, huu, hsnap⟩ := (mem_snapMsgsFor hta t u).mp hmem
        subst hxt
        exact ⟨hain, _, uu, hta, huu, hsnap⟩
    · rintro ⟨hmem, tt, uu, htt, huu, hsnap⟩
      refine Or.inr (List.mem_flatMap.mpr ⟨t, hmem, ?_⟩)
      exact (mem_snapMsgsFor htt t u).mpr ⟨rfl, uu, huu, hsnap⟩
  · intro pos s2 msgs hcl t u
    cases hov : hovered_tile s pos with
    | none =>
      simp only [click, hov] at hcl
      injection hcl with hcl
      injection hcl with h1 h2
      subst h2
      simp
    | some i =>
      cases hti : s.jigsaw.tiles[i]? with
      | none => simp only [click, hov, hti] at hcl; cases hcl
      | some tlx =>
        simp only [click, hov, hti, hp] at hcl
        injection hcl with hcl
        injection hcl with h1 h2
        subst h2
        simp
  · intro w t u
    rw [update_cursor_snd]
    simp

/-- Concrete state for the C1 witness: the local player 1 holds tile 0, which
rests at the origin with grid position (0,0); tile 1 has grid position (1,0) and
rests at (21/20, 0), within the snap threshold of its perfect position. -/
def W1s : GameState := mkState 1 [(1, mkPlayer 0 0 (some (0, ⟨0, 0⟩)))] [mkTile 0 0 [] (some 1) 0 0 0, mkTile 1 0 [] none (21/20) 0 0] ⟨1, 1⟩ 0

/-- C1 witness: the theorem applied at the concrete state. -/
theorem claim_C1_witness :
    (∀ s2 msgs, release W1s = some (s2, msgs) →
      ∀ t u, ClientMessage.ConnectTiles t u ∈ msgs ↔
        (t ∈ get_all_connected s2.jigsaw.tiles 0 ∧
         ∃ tt uu, s2.jigsaw.tiles[t]? = some tt ∧ s2.jigsaw.tiles[u]? = some uu ∧ specSnap s2.jigsaw tt uu u)) ∧
    (∀ pos s2 msgs, click W1s pos = some (s2, msgs) → ∀ t u, ClientMessage.ConnectTiles t u ∉ msgs) ∧
    (∀ w t u, ClientMessage.ConnectTiles t u ∉ (update_cursor W1s w).2) :=
  claim_C1 W1s (mkPlayer 0 0 (some (0, ⟨0, 0⟩))) 0 ⟨0, 0⟩ (mkTile 0 0 [] (some 1) 0 0 0)
    (by with_unfolding_all decide) rfl (by with_unfolding_all decide)

/-- Sanity instance of the snap scan (spec section 8 scenario): releasing tile 0
at the concrete state emits the ReleaseTile message followed by exactly one
ConnectTiles(0, 1) request, since tile 1 sits 1/20 away from its perfect snap
position, within the 0.2 threshold. -/
theorem release_snap_sample :
    ((release W1s).map (fun r => r.2)) =
      some [ClientMessage.ReleaseTile 0 ⟨0, 0⟩, ClientMessage.ConnectTiles 0 1] := by
  with_unfolding_all decide

end LD52
